import Mathlib

/-!
# Verification of the metrics backend (`backend/main.py`)

A shallow embedding of the data pipeline of the backend:
locale-aware numeric normalization (`normalize_num`), CSV row loading with
date filtering (`load_metrics_optimized`), sorting (`sort_data`), Python
list-slice pagination, output formatting (`format_br`) with role gating,
and the `/data` and `/stats` endpoint bodies.

Modelling conventions:
* Python `float` values are modelled as exact rationals (`ℚ`); the
  binary-float parsing/rounding of CPython is modelled as exact decimal
  arithmetic (`pyFloat` below), and `float`-formatting rounding as
  round-half-up on rationals.  Special float syntax (`inf`, `nan`,
  digit-group underscores) is not modelled.
* Python exceptions are modelled as `Except Unit` / `Option` results.
* CSV rows from `csv.DictReader` are records of `Option String` fields
  (`none` = column missing; a missing or `None` cell and the `row.get`
  defaults coincide on every path used here).
* Strings are processed as `List Char`, matching Python's per-character
  semantics of `strip`/`replace`/`rfind`/slicing.
-/

namespace Monks

/-! ## Character-list utilities shared by the parsers -/

/-- All characters are decimal digits. -/
def allDigits (l : List Char) : Bool := l.all (·.isDigit)

/-- Numeric value of a digit list (most significant first). -/
def digitsVal (l : List Char) : ℕ := l.foldl (fun a c => a * 10 + (c.toNat - 48)) 0

/-- Split a character list at every occurrence of `c` (Python `str.split(c)`):
always returns at least one (possibly empty) part. -/
def splitOnChar (c : Char) : List Char → List (List Char)
  | [] => [[]]
  | x :: xs =>
    if x = c then [] :: splitOnChar c xs
    else
      match splitOnChar c xs with
      | [] => [[x]]
      | y :: ys => (x :: y) :: ys

/-- Strip whitespace from both ends (Python `str.strip` on a char list). -/
def trimChars (l : List Char) : List Char :=
  ((l.dropWhile Char.isWhitespace).reverse.dropWhile Char.isWhitespace).reverse

/-- Index of the last occurrence of `c`, `-1` if absent (Python `str.rfind`). -/
def lastIdxFrom (c : Char) : List Char → ℤ → ℤ
  | [], _ => -1
  | x :: xs, i =>
    let r := lastIdxFrom c xs (i + 1)
    if r = -1 then (if x = c then i else -1) else r

/-- Python `val.rfind(c)`. -/
def lastIdx (v : List Char) (c : Char) : ℤ := lastIdxFrom c v 0

/-! ## Model of Python `float(str)` (`pyFloat`) -/

/-- Lower-case the exponent marker only, so that `e`/`E` are both accepted. -/
def lowerE (c : Char) : Char := if c = 'E' then 'e' else c

/-- Mantissa of a float literal: digits with at most one `'.'` and at least
one digit (`"1"`, `"1.5"`, `"1."`, `".5"`; not `"."` or `""`). -/
def parseMantissa (m : List Char) : Except Unit ℚ :=
  match splitOnChar '.' m with
  | [a] => if a ≠ [] && allDigits a then .ok (digitsVal a) else .error ()
  | [a, b] =>
    if (a ≠ [] || b ≠ []) && allDigits a && allDigits b then
      .ok (digitsVal a + digitsVal b / 10 ^ b.length)
    else .error ()
  | _ => .error ()

/-- Exponent digits after an optional sign was removed. -/
def parseExpDigits (r : List Char) (sgn : ℤ) : Except Unit ℤ :=
  if r ≠ [] && allDigits r then .ok (sgn * digitsVal r) else .error ()

/-- Exponent part of a float literal: optional sign, then digits. -/
def parseExp (x : List Char) : Except Unit ℤ :=
  match x with
  | [] => parseExpDigits [] 1
  | c :: r =>
    if c = '+' then parseExpDigits r 1
    else if c = '-' then parseExpDigits r (-1)
    else parseExpDigits (c :: r) 1

/-- Unsigned float literal: mantissa with an optional `e`-exponent. -/
def pyFloatUnsigned (l : List Char) (sgn : ℚ) : Except Unit ℚ :=
  match splitOnChar 'e' (l.map lowerE) with
  | [m] => (parseMantissa m).map (fun q => sgn * q)
  | [m, x] => do
    let q ← parseMantissa m
    let e ← parseExp x
    pure (sgn * q * (10 : ℚ) ^ e)
  | _ => .error ()

/-- Model of Python `float(s)` on a character list: surrounding whitespace is
stripped, an optional leading sign is honoured, then an optionally
`e`-exponented decimal literal is parsed; everything else raises
(`.error`). -/
def pyFloat (w : List Char) : Except Unit ℚ :=
  match trimChars w with
  | [] => .error ()
  | c :: r =>
    if c = '+' then pyFloatUnsigned r 1
    else if c = '-' then pyFloatUnsigned r (-1)
    else pyFloatUnsigned (c :: r) 1

/-! ## `normalize_num` (`main.py`, lines 124-133) -/

/-- The comma character mapped to a dot, as in `val.replace(',', '.')`. -/
def commaToDot (c : Char) : Char := if c = ',' then '.' else c

/-- The numeric normalizer of the loader.  `none` models a falsy/`None`
value reaching the function (then `float(val or 0)` returns `0.0`);
otherwise the string is stripped and, when a comma is present, the branch
on `val.rfind('.') < val.rfind(',')` decides how separators are rewritten
before the final `float` call. -/
def normalize_num (val : Option String) : Except Unit ℚ :=
  match val with
  | none => .ok 0
  | some s =>
    if s = "" then .ok 0
    else
      let v := trimChars s.toList
      if ',' ∈ v then
        if '.' ∈ v ∧ lastIdx v '.' < lastIdx v ',' then
          pyFloat ((v.filter (fun c => c ≠ '.')).map commaToDot)
        else
          pyFloat (v.map commaToDot)
      else pyFloat v

/-! ## Dates (`datetime.strptime(s, '%Y-%m-%d')`) -/

/-- A parsed calendar date. -/
structure Date where
  year : ℕ
  month : ℕ
  day : ℕ
deriving DecidableEq

/-- Gregorian leap-year rule, as used by `datetime`. -/
def isLeap (y : ℕ) : Bool := y % 4 = 0 && (y % 100 ≠ 0 || y % 400 = 0)

/-- Days in a month, as validated by the `datetime` constructor. -/
def daysInMonth (y m : ℕ) : ℕ :=
  if m = 2 then (if isLeap y then 29 else 28)
  else if m = 4 ∨ m = 6 ∨ m = 9 ∨ m = 11 then 30
  else 31

/-- Model of `datetime.strptime(s, '%Y-%m-%d')` as a partial function: `%Y` is exactly
four digits, `%m`/`%d` one or two digits, with calendar validation; any
mismatch or invalid date raises (`none`). -/
def parseDate? (s : String) : Option Date :=
  match splitOnChar '-' s.toList with
  | [ys, ms, ds] =>
    if ys.length = 4 && allDigits ys && 1 ≤ ms.length && ms.length ≤ 2 && allDigits ms
        && 1 ≤ ds.length && ds.length ≤ 2 && allDigits ds then
      let y := digitsVal ys
      let m := digitsVal ms
      let d := digitsVal ds
      if 1 ≤ y && 1 ≤ m && m ≤ 12 && 1 ≤ d && d ≤ daysInMonth y m then
        some ⟨y, m, d⟩
      else none
    else none
  | _ => none

/-- Dates (`datetime` values) compare lexicographically by (year, month, day). -/
def Date.le (a b : Date) : Prop :=
  a.year < b.year ∨ (a.year = b.year ∧
    (a.month < b.month ∨ (a.month = b.month ∧ a.day ≤ b.day)))

instance (a b : Date) : Decidable (Date.le a b) := by unfold Date.le; exact inferInstance

instance : LinearOrder Date where
  le := Date.le
  le_refl a := by simp [Date.le]
  le_trans a b c hab hbc := by
    simp only [Date.le] at hab hbc ⊢
    omega
  le_antisymm a b hab hba := by
    simp only [Date.le] at hab hba
    have h1 : a.year = b.year ∧ a.month = b.month ∧ a.day = b.day := by omega
    cases a; cases b; simp_all
  le_total a b := by
    simp only [Date.le]
    omega
  decidableLE a b := inferInstanceAs (Decidable (Date.le a b))

/-! ## Rows and the loading step (`load_metrics_optimized`, lines 95-182) -/

/-- A raw CSV row from `csv.DictReader`: every field is optionally present. -/
structure RawRow where
  account_id : Option String
  campaign_id : Option String
  date : Option String
  cost_micros : Option String
  clicks : Option String
  conversions : Option String
  impressions : Option String
  interactions : Option String
deriving DecidableEq

/-- A loaded metric row after date parsing and numeric normalization. -/
structure MetricRow where
  account_id : Option String
  campaign_id : Option String
  date : Date
  cost_micros : ℚ
  clicks : ℚ
  conversions : ℚ
  impressions : ℚ
  interactions : ℚ
deriving DecidableEq

/-- Model of `normalize_num(row.get(field, '0'))`: a missing field is defaulted to
the string `"0"` before normalization. -/
def fieldVal (v : Option String) : Except Unit ℚ := normalize_num (some (v.getD "0"))

/-- The parsed date of a raw row (`row['date']` then `strptime`): `none` when
the column is missing (`KeyError`) or the date is malformed (`ValueError`). -/
def rowDate? (row : RawRow) : Option Date := row.date.bind parseDate?

/-- Per-row body of the loading loop: parse the date (failure drops the
row), apply the inclusive date-range guards (`continue` on out-of-range),
then normalize the five numeric fields (any `ValueError` drops the row via
the `except` clause). -/
def processRow (sdt edt : Option Date) (row : RawRow) : Option MetricRow := do
  let d ← rowDate? row
  if (match sdt with | some s => decide (d < s) | none => false) then none
  else if (match edt with | some e => decide (e < d) | none => false) then none
  else
    let cm ← (fieldVal row.cost_micros).toOption
    let ck ← (fieldVal row.clicks).toOption
    let cv ← (fieldVal row.conversions).toOption
    let im ← (fieldVal row.impressions).toOption
    let ir ← (fieldVal row.interactions).toOption
    pure ⟨row.account_id, row.campaign_id, d, cm, ck, cv, im, ir⟩

/-- Bound parsing: `if start_date:` truthiness plus `strptime` with the warning-and-ignore
`except` clause: an absent, empty or unparsable bound yields no bound. -/
def parseBound (x : Option String) : Option Date :=
  match x with
  | none => none
  | some s => if s = "" then none else parseDate? s

/-- The filtered in-memory row list (`all_metrics`). -/
def filteredRows (rows : List RawRow) (sd ed : Option String) : List MetricRow :=
  rows.filterMap (processRow (parseBound sd) (parseBound ed))

/-! ## Sorting (`sort_data`, lines 223-248)

Python's `list.sort(key=k, reverse=rev)` is a stable sort; insertion sort
with the non-strict relation on keys (flipped for `reverse=True`) is its
standard functional model: an element is inserted before the first element
it is `≤`, so earlier elements stay before equal-keyed later ones. -/

/-- Stable sort by a key, ascending, or descending for `desc = true`. -/
def sortKeyed {α β : Type} [LinearOrder β] (key : α → β) (desc : Bool) (l : List α) : List α :=
  if desc then l.insertionSort (fun a b => key b ≤ key a)
  else l.insertionSort (fun a b => key a ≤ key b)

/-- Numeric sort key: `float(x.get(sort_by, 0))`; the five fields are
already floats after loading, so the key is the field itself. -/
def numField (f : String) (r : MetricRow) : ℚ :=
  if f = "cost_micros" then r.cost_micros
  else if f = "clicks" then r.clicks
  else if f = "conversions" then r.conversions
  else if f = "impressions" then r.impressions
  else r.interactions

/-- The five numeric sort fields. -/
def numericFields : List String :=
  ["cost_micros", "clicks", "conversions", "impressions", "interactions"]

/-- Model of `sort_data(data, sort_by, sort_desc)`: date key (always a parsed date
after loading), numeric key, string key for the id fields, and a no-op for
any other field name. -/
def sort_data (data : List MetricRow) (sort_by : String) (desc : Bool) : List MetricRow :=
  if sort_by = "date" then sortKeyed (fun r => r.date) desc data
  else if sort_by ∈ numericFields then sortKeyed (numField sort_by) desc data
  else if sort_by = "account_id" then sortKeyed (fun r => r.account_id.getD "") desc data
  else if sort_by = "campaign_id" then sortKeyed (fun r => r.campaign_id.getD "") desc data
  else data

/-! ## Python list slicing (`all_metrics[start_idx:end_idx]`) -/

/-- Normalize a Python slice index: negative indices count from the end,
then the index is clamped to `[0, len]`. -/
def pyNormIdx (n : ℕ) (i : ℤ) : ℕ := (min (max (if i < 0 then i + n else i) 0) (n : ℤ)).toNat

/-- Python `l[a:b]` (step 1). -/
def pySlice {α : Type} (l : List α) (a b : ℤ) : List α :=
  (l.drop (pyNormIdx l.length a)).take (pyNormIdx l.length b - pyNormIdx l.length a)

/-- Model of `load_metrics_optimized` on an in-memory CSV: filter, sort, then slice
`[(page-1)*page_size : (page-1)*page_size + page_size]`; the returned total
is the filtered count before pagination. -/
def load_metrics_optimized (rows : List RawRow) (sd ed : Option String)
    (sort_by : String) (desc : Bool) (page page_size : ℤ) : List MetricRow × ℕ :=
  let ms := filteredRows rows sd ed
  let sorted := sort_data ms sort_by desc
  (pySlice sorted ((page - 1) * page_size) ((page - 1) * page_size + page_size), ms.length)

/-! ## Output formatting (`format_br`, lines 327-334, and the f-strings) -/

/-- Digits of a natural number, most significant first. -/
def natDigits (n : ℕ) : List Char := (Nat.repr n).toList

/-- Insert a `','` after every third digit, counting from the right; the
input is the reversed digit list. -/
def groupRev : List Char → ℕ → List Char
  | [], _ => []
  | c :: cs, k => if k = 0 then ',' :: c :: groupRev cs 2 else c :: groupRev cs (k - 1)

/-- US thousands grouping of a natural number (`f"{n:,}"`). -/
def groupUS (n : ℕ) : List Char := (groupRev (natDigits n).reverse 3).reverse

/-- Two-digit zero-padded fraction. -/
def pad2 (n : ℕ) : List Char := if n < 10 then '0' :: natDigits n else natDigits n

/-- Model of `f"{value:,.2f}"`: round to two decimals (rounding modelled as
round-half-up on the magnitude; binary-float tie behaviour differs only on
exact ties), group thousands with `','`, decimal point `'.'`. -/
def formatUS2 (q : ℚ) : String :=
  let m : ℕ := (round (|q| * 100) : ℤ).toNat
  let intPart := m / 100
  let fracPart := m % 100
  ⟨(if q < 0 then ['-'] else []) ++ groupUS intPart ++ '.' :: pad2 fracPart⟩

/-- The `TEMP` swap of `format_br`: `','` and `'.'` exchanged. -/
def swapSeps (s : String) : String :=
  ⟨s.toList.map (fun c => if c = ',' then '.' else if c = '.' then ',' else c)⟩

/-- Model of `format_br(value)`: `"0,00"` for zero, otherwise the US format with
separators swapped to the Brazilian convention. -/
def format_br (q : ℚ) : String :=
  if q = 0 then "0,00" else swapSeps (formatUS2 q)

/-- Model of `f"{x:,.0f}"` as used by `/stats`: thousands-grouped integer. -/
def fmt0 (q : ℚ) : String :=
  ⟨(if q < 0 then ['-'] else []) ++ groupUS (round |q| : ℤ).toNat⟩

/-- Four-digit zero-padded year. -/
def pad4 (n : ℕ) : List Char :=
  List.replicate (4 - (natDigits n).length) '0' ++ natDigits n

/-- Model of `date.strftime('%Y-%m-%d')`. -/
def formatDate (d : Date) : String :=
  ⟨pad4 d.year ++ '-' :: pad2 d.month ++ '-' :: pad2 d.day⟩

/-! ## Role gating and the endpoint bodies -/

/-- The base column metadata of `/columns`. -/
def base_columns : List (String × String) :=
  [("account_id", "Account ID"), ("campaign_id", "Campaign ID"),
   ("clicks", "Clicks"), ("conversions", "Conversions"),
   ("impressions", "Impressions"), ("interactions", "Interactions"),
   ("date", "Date")]

/-- The `/columns` metadata: `cost_micros` is inserted at index 2 for admins only. -/
def get_available_columns (role : String) : List (String × String) :=
  if role = "admin" then base_columns.insertIdx 2 ("cost_micros", "Cost (Micros)")
  else base_columns

/-- One formatted `/data` item, in insertion order; `cost_micros` is
appended only for the `admin` role. -/
def formatRow (role : String) (row : MetricRow) : List (String × String) :=
  [("account_id", row.account_id.getD ""), ("campaign_id", row.campaign_id.getD ""),
   ("clicks", format_br row.clicks), ("conversions", format_br row.conversions),
   ("impressions", format_br row.impressions), ("interactions", format_br row.interactions),
   ("date", formatDate row.date)]
  ++ (if role = "admin" then [("cost_micros", format_br row.cost_micros)] else [])

/-- The `total_pages = (total + page_size - 1) // page_size` computation
(Python `//` is flooring division, `Int.fdiv`). -/
def total_pages_calc (total : ℕ) (ps : ℤ) : ℤ := Int.fdiv ((total : ℤ) + ps - 1) ps

/-- The JSON payload of a successful `/data` response. -/
structure DataPayload where
  items : List (List (String × String))
  total : ℕ
  page : ℤ
  page_size : ℤ
  total_pages : ℤ
  message : Option String
  showing : Option ℕ
deriving DecidableEq

/-- Outcome of `/data`: a JSON payload or an `HTTPException`. -/
inductive DataResult
  | ok (payload : DataPayload)
  | httpError (status : ℕ) (detail : String)
deriving DecidableEq

/-- Body of `get_metrics_data` (lines 296-371): clamp `page`/`page_size`,
run the load (whose outcome is passed in, `.error` modelling an unexpected
exception caught by the `except` clause as a 500), then either the
empty-page response with `total = 0` or the formatted page. -/
def get_metrics_data (load : Except String (List MetricRow × ℕ)) (role : String)
    (page0 ps0 : ℤ) : DataResult :=
  let ps := min ps0 1000
  let p := max 1 page0
  match load with
  | .error e => .httpError 500 ("Erro interno do servidor: " ++ e)
  | .ok (rows, total) =>
    if rows.isEmpty then
      .ok ⟨[], 0, p, ps, 0, some "Nenhum dado encontrado", none⟩
    else
      .ok ⟨rows.map (formatRow role), total, p, ps, total_pages_calc total ps,
        none, some rows.length⟩

/-- The `/data` endpoint end to end on an in-memory CSV. -/
def run_data (rows : List RawRow) (sd ed : Option String) (sort_by : String) (desc : Bool)
    (page0 ps0 : ℤ) (role : String) : DataResult :=
  get_metrics_data
    (.ok (load_metrics_optimized rows sd ed sort_by desc (max 1 page0) (min ps0 1000)))
    role page0 ps0

/-- The JSON payload of a `/stats` response. -/
structure StatsPayload where
  total_records : ℕ
  total_clicks : String
  total_conversions : String
  total_impressions : String
  note : Option String
  error : Option String
deriving DecidableEq

/-- Body of `get_basic_stats` (lines 373-413): sums over the loaded sample;
an unexpected exception is swallowed into a zeroed 200 payload carrying an
`error` field. -/
def get_basic_stats (load : Except String (List MetricRow × ℕ)) : StatsPayload :=
  match load with
  | .error e => ⟨0, "0", "0", "0", none, some e⟩
  | .ok (sample, total) =>
    if sample.isEmpty then ⟨0, "0", "0", "0", none, none⟩
    else
      ⟨total,
       fmt0 ((sample.map (fun r => r.clicks)).sum),
       fmt0 ((sample.map (fun r => r.conversions)).sum),
       fmt0 ((sample.map (fun r => r.impressions)).sum),
       if total > sample.length then
         some ("Calculado com amostra de " ++ toString sample.length ++ " registros")
       else none,
       none⟩

/-- The `/stats` endpoint end to end on an in-memory CSV: the sample is the first page
of 5000 rows sorted by date ascending. -/
def run_stats (rows : List RawRow) (sd ed : Option String) : StatsPayload :=
  get_basic_stats (.ok (load_metrics_optimized rows sd ed "date" false 1 5000))

/-! ## Pagination lemmas -/

theorem pyNormIdx_le (n : ℕ) (i : ℤ) : pyNormIdx n i ≤ n := by
  unfold pyNormIdx
  split <;> omega

theorem length_pySlice {α : Type} (l : List α) (a b : ℤ) :
    (pySlice l a b).length = pyNormIdx l.length b - pyNormIdx l.length a := by
  unfold pySlice
  rw [List.length_take, List.length_drop]
  have hb := pyNormIdx_le l.length b
  omega

theorem pyNormIdx_of_nonneg (n : ℕ) (i : ℤ) (h : 0 ≤ i) :
    (pyNormIdx n i : ℤ) = min i (n : ℤ) := by
  unfold pyNormIdx
  rw [if_neg (by omega)]
  omega

theorem pyNormIdx_eq_self_of_ge (n : ℕ) (i : ℤ) (h : (n : ℤ) ≤ i) : pyNormIdx n i = n := by
  unfold pyNormIdx
  split <;> omega

theorem pySlice_eq_nil_of_start_ge {α : Type} (l : List α) (a b : ℤ)
    (h : (l.length : ℤ) ≤ a) : pySlice l a b = [] := by
  unfold pySlice
  rw [pyNormIdx_eq_self_of_ge _ _ h, List.drop_length, List.take_nil]

theorem pySlice_zero {α : Type} (l : List α) (b : ℤ) :
    pySlice l 0 b = l.take (pyNormIdx l.length b) := by
  unfold pySlice
  have h0 : pyNormIdx l.length 0 = 0 := by unfold pyNormIdx; split <;> omega
  rw [h0, List.drop_zero, Nat.sub_zero]

/-- Flooring division of nonnegative numerator by positive denominator,
expressed as `⌈·⌉` of the rational quotient. -/
theorem ceil_div_nat (t s : ℕ) (hs : 0 < s) :
    ⌈(t : ℚ) / (s : ℚ)⌉ = (((t + s - 1) / s : ℕ) : ℤ) := by
  have hs' : (0 : ℚ) < (s : ℚ) := by positivity
  set c : ℕ := (t + s - 1) / s with hc
  have hmod := Nat.div_add_mod (t + s - 1) s
  have hrlt : (t + s - 1) % s < s := Nat.mod_lt _ hs
  set r : ℕ := (t + s - 1) % s with hr
  have hmQ : (s : ℚ) * c + r = (t : ℚ) + s - 1 := by
    have h0 : ((s * c + r : ℕ) : ℚ) = ((t + s - 1 : ℕ) : ℚ) := by rw [hmod]
    have h1 : ((t + s - 1 : ℕ) : ℚ) = (t : ℚ) + s - 1 := by
      rw [Nat.cast_sub (by omega)]
      push_cast
      ring
    push_cast at h0
    linarith [h0, h1]
  have hr0 : (0 : ℚ) ≤ (r : ℚ) := by positivity
  have hrs : (r : ℚ) + 1 ≤ (s : ℚ) := by exact_mod_cast hrlt
  have hcomm : (c : ℚ) * s = (s : ℚ) * c := mul_comm _ _
  apply le_antisymm
  · rw [Int.ceil_le]
    push_cast
    rw [div_le_iff₀ hs']
    nlinarith [hmQ, hrs, hcomm]
  · have h2 : ((c : ℕ) : ℤ) - 1 < ⌈(t : ℚ) / (s : ℚ)⌉ := by
      rw [Int.lt_ceil]
      push_cast
      rw [lt_div_iff₀ hs']
      nlinarith [hmQ, hr0, hcomm]
    omega

theorem total_pages_eq_ceil (t : ℕ) (ps : ℤ) (h : 1 ≤ ps) :
    total_pages_calc t ps = ⌈(t : ℚ) / (ps : ℚ)⌉ := by
  obtain ⟨s, rfl⟩ : ∃ s : ℕ, ps = (s : ℤ) := ⟨ps.toNat, by omega⟩
  have hs : 0 < s := by exact_mod_cast h
  unfold total_pages_calc
  have harg : (t : ℤ) + (s : ℤ) - 1 = ((t + s - 1 : ℕ) : ℤ) := by omega
  rw [harg, Int.fdiv_eq_ediv _ (by positivity), ← Int.natCast_div,
    show ((s : ℤ) : ℚ) = ((s : ℕ) : ℚ) by norm_cast, ceil_div_nat t s hs]

/-! ## Claim theorems -/

/-- C8: an unexpected internal failure in `/data` raises HTTP 500 with a
message, while the same failure in `/stats` is swallowed into a 200 payload
with zeroed aggregates and an `error` field, for every failure message and
request parameters. -/
theorem data_500_stats_swallow (e : String) (role : String) (page0 ps0 : ℤ) :
    get_metrics_data (.error e) role page0 ps0
        = .httpError 500 ("Erro interno do servidor: " ++ e)
      ∧ get_basic_stats (.error e) = ⟨0, "0", "0", "0", none, some e⟩ :=
  ⟨rfl, rfl⟩

/-- C6: `cost_micros` appears among the `/columns` keys and among the keys
of every formatted `/data` row exactly when the caller's role is `admin`;
otherwise the key is absent from every row. -/
theorem cost_micros_role_gated (role : String) :
    ("cost_micros" ∈ (get_available_columns role).map Prod.fst ↔ role = "admin")
      ∧ ∀ row : MetricRow,
        ("cost_micros" ∈ (formatRow role row).map Prod.fst ↔ role = "admin") := by
  by_cases h : role = "admin"
  · subst h
    refine ⟨by decide, fun row => ?_⟩
    simp [formatRow]
  · refine ⟨?_, fun row => ?_⟩
    · simp only [get_available_columns, if_neg h]
      simp +decide [base_columns, h]
    · simp only [formatRow, if_neg h, List.append_nil]
      simp +decide [h]

/-- C3: with `page` clamped to at least 1 and `page_size` clamped to at
most 1000 (and at least 1), the paginated slice has exactly
`min page_size (max 0 (total - (page-1)*page_size))` items, the
`total_pages` computation equals `⌈total / page_size⌉`, and a page starting
beyond the end of the data yields an empty list rather than an error. -/
theorem pagination_count_pages (rows : List MetricRow) (page ps : ℤ)
    (hp : 1 ≤ page) (hps1 : 1 ≤ ps) (hps2 : ps ≤ 1000) :
    ((pySlice rows ((page - 1) * ps) ((page - 1) * ps + ps)).length : ℤ)
        = min ps (max 0 ((rows.length : ℤ) - (page - 1) * ps))
      ∧ total_pages_calc rows.length ps = ⌈(rows.length : ℚ) / (ps : ℚ)⌉
      ∧ ((rows.length : ℤ) ≤ (page - 1) * ps →
          pySlice rows ((page - 1) * ps) ((page - 1) * ps + ps) = []) := by
  have ha : 0 ≤ (page - 1) * ps := mul_nonneg (by omega) (by omega)
  refine ⟨?_, total_pages_eq_ceil _ _ hps1, fun h => pySlice_eq_nil_of_start_ge _ _ _ h⟩
  rw [length_pySlice]
  have h1 := pyNormIdx_of_nonneg rows.length ((page - 1) * ps) ha
  have h2 := pyNormIdx_of_nonneg rows.length ((page - 1) * ps + ps) (by omega)
  have h3 := pyNormIdx_le rows.length ((page - 1) * ps)
  have h4 := pyNormIdx_le rows.length ((page - 1) * ps + ps)
  omega

/-- A metric row with the given date and zeroed numerics, for witnesses. -/
def zeroRow (d : Date) : MetricRow := ⟨none, none, d, 0, 0, 0, 0, 0⟩

/-- Four concrete rows used by pagination witnesses. -/
def fourRows : List MetricRow :=
  [zeroRow ⟨2024,1,1⟩, zeroRow ⟨2024,1,2⟩, zeroRow ⟨2024,1,3⟩, zeroRow ⟨2024,1,4⟩]

/-- C3 witness: four rows, `page = 5`, `page_size = 3`: the slice is empty
and `total_pages = ⌈4/3⌉`. -/
theorem pagination_count_pages_witness :
    ((pySlice fourRows ((5 - 1) * 3) ((5 - 1) * 3 + 3)).length : ℤ)
        = min 3 (max 0 ((fourRows.length : ℤ) - (5 - 1) * 3))
      ∧ total_pages_calc fourRows.length 3 = ⌈(fourRows.length : ℚ) / ((3 : ℤ) : ℚ)⌉
      ∧ ((fourRows.length : ℤ) ≤ (5 - 1) * 3 →
          pySlice fourRows ((5 - 1) * 3) ((5 - 1) * 3 + 3) = []) :=
  pagination_count_pages fourRows 5 3 (by norm_num) (by norm_num) (by norm_num)

theorem sortKeyed_length {α β : Type} [LinearOrder β] (key : α → β) (desc : Bool)
    (l : List α) : (sortKeyed key desc l).length = l.length := by
  unfold sortKeyed
  split <;> simp [List.length_insertionSort]

theorem sort_data_length (data : List MetricRow) (sb : String) (dsc : Bool) :
    (sort_data data sb dsc).length = data.length := by
  unfold sort_data
  split_ifs <;> simp [sortKeyed_length]

/-- C9: when the filtered dataset is non-empty but the requested page's
slice is empty, `/data` answers 200 with `total = 0`, `total_pages = 0` and
a message, not the true filtered total. -/
theorem empty_page_reports_zero (rows : List RawRow) (sd ed : Option String)
    (sb : String) (dsc : Bool) (page ps : ℤ) (role : String)
    (_hne : filteredRows rows sd ed ≠ [])
    (_hps : 1 ≤ ps)
    (hbeyond : ((filteredRows rows sd ed).length : ℤ) ≤ (max 1 page - 1) * min ps 1000) :
    run_data rows sd ed sb dsc page ps role
      = .ok ⟨[], 0, max 1 page, min ps 1000, 0, some "Nenhum dado encontrado", none⟩ := by
  unfold run_data load_metrics_optimized
  dsimp only
  have hlen : ((sort_data (filteredRows rows sd ed) sb dsc).length : ℤ)
      ≤ (max 1 page - 1) * min ps 1000 := by
    rw [sort_data_length]; exact hbeyond
  rw [pySlice_eq_nil_of_start_ge _ _ _ hlen]
  rfl

/-- A one-row raw CSV used by witnesses. -/
def demoRaw : List RawRow :=
  [⟨some "a1", some "c1", some "2024-01-01", some "10", some "1", some "2", some "3", some "4"⟩]

/-- C9 witness: one filtered row, `page = 2`, `page_size = 25`. -/
theorem empty_page_reports_zero_witness :
    run_data demoRaw none none "date" false 2 25 "admin"
      = .ok ⟨[], 0, max 1 2, min 25 1000, 0, some "Nenhum dado encontrado", none⟩ :=
  empty_page_reports_zero demoRaw none none "date" false 2 25 "admin"
    (by decide) (by decide) (by decide)

/-- The `total_pages` field of a `DataResult`, when it carries a payload. -/
def resultTotalPages : DataResult → Option ℤ
  | .ok p => some p.total_pages
  | .httpError _ _ => none

theorem fdiv_neg_of_pos_of_neg (a b : ℤ) (ha : 0 < a) (hb : b < 0) : a.fdiv b < 0 := by
  obtain ⟨m, rfl⟩ : ∃ m : ℕ, a = ((m + 1 : ℕ) : ℤ) := ⟨(a - 1).toNat, by omega⟩
  obtain ⟨nb, rfl⟩ : ∃ nb : ℕ, b = Int.negSucc nb :=
    ⟨(-b - 1).toNat, by rw [Int.negSucc_eq]; omega⟩
  exact Int.negSucc_lt_zero _

/-- A three-row raw CSV used by witnesses. -/
def threeRaw : List RawRow :=
  [⟨some "a1", some "c1", some "2024-01-01", some "10", some "1", some "2", some "3", some "4"⟩,
   ⟨some "a2", some "c2", some "2024-01-02", some "20", some "5", some "6", some "7", some "8"⟩,
   ⟨some "a3", some "c3", some "2024-01-03", some "30", some "9", some "1", some "2", some "3"⟩]

/-- C10 counterexample: two filtered rows, `page = 1`, `page_size = -1`
(so `k = 1` and `total = 2 > k`): the claim predicts a negative
`total_pages`, but the response carries `total_pages = 0`
(`(2 + (-1) - 1) // (-1) = 0`). -/
theorem negative_page_size_counterexample :
    resultTotalPages
        (run_data
          [⟨some "a1", some "c1", some "2024-01-01", some "10", some "1", some "2", some "3", some "4"⟩,
           ⟨some "a2", some "c2", some "2024-01-02", some "20", some "5", some "6", some "7", some "8"⟩]
          none none "date" false 1 (-1) "admin")
      = some 0 := by decide

/-- C10 (amended): a `page_size ≤ 0` passes the upper-bound clamp
unchanged.  With `page = 1` and `page_size = 0` the endpoint returns the
empty-page payload with `total = 0`.  With `page = 1`, `page_size = -k`
(`1 ≤ k`) and more than `k` filtered rows, the slice `rows[0:-k]` keeps all
but the last `k` rows, and `total_pages = (total + page_size - 1) //
page_size` is non-positive: it is `0` when `total = k + 1` and negative
exactly when `total ≥ k + 2`. -/
theorem negative_page_size_behavior :
    (∀ (rows : List RawRow) (sd ed : Option String) (sb : String) (dsc : Bool) (role : String),
        run_data rows sd ed sb dsc 1 0 role
          = .ok ⟨[], 0, 1, 0, 0, some "Nenhum dado encontrado", none⟩)
    ∧ ∀ (rows : List RawRow) (sd ed : Option String) (sb : String) (dsc : Bool) (role : String)
        (k : ℕ), 1 ≤ k → k < (filteredRows rows sd ed).length →
        (run_data rows sd ed sb dsc 1 (-(k : ℤ)) role
            = .ok ⟨((sort_data (filteredRows rows sd ed) sb dsc).take
                      ((filteredRows rows sd ed).length - k)).map (formatRow role),
                   (filteredRows rows sd ed).length, 1, -(k : ℤ),
                   total_pages_calc (filteredRows rows sd ed).length (-(k : ℤ)),
                   none, some ((filteredRows rows sd ed).length - k)⟩)
          ∧ total_pages_calc (filteredRows rows sd ed).length (-(k : ℤ)) ≤ 0
          ∧ ((filteredRows rows sd ed).length = k + 1 →
              total_pages_calc (filteredRows rows sd ed).length (-(k : ℤ)) = 0)
          ∧ (k + 2 ≤ (filteredRows rows sd ed).length →
              total_pages_calc (filteredRows rows sd ed).length (-(k : ℤ)) < 0) := by
  constructor
  · intro rows sd ed sb dsc role
    unfold run_data load_metrics_optimized
    dsimp only
    rw [show ((max 1 (1:ℤ)) - 1) * (min 0 1000) = 0 by norm_num,
      show (0:ℤ) + (min 0 1000) = 0 by norm_num,
      pySlice_zero, show pyNormIdx (sort_data (filteredRows rows sd ed) sb dsc).length 0 = 0
        by unfold pyNormIdx; split <;> omega,
      List.take_zero]
    norm_num [get_metrics_data]
  · intro rows sd ed sb dsc role k hk hlt
    have hmin : min (-(k : ℤ)) 1000 = -(k : ℤ) := min_eq_left (by omega)
    have htp : ∀ z : ℤ, z = -(k : ℤ) →
        total_pages_calc (filteredRows rows sd ed).length z ≤ 0
          ∧ ((filteredRows rows sd ed).length = k + 1 →
              total_pages_calc (filteredRows rows sd ed).length z = 0)
          ∧ (k + 2 ≤ (filteredRows rows sd ed).length →
              total_pages_calc (filteredRows rows sd ed).length z < 0) := by
      rintro z rfl
      unfold total_pages_calc
      refine ⟨?_, fun h0 => ?_, fun h2 => ?_⟩
      · rcases eq_or_lt_of_le (show (k:ℤ) + 1 ≤ ((filteredRows rows sd ed).length : ℤ) by omega)
          with h | h
        · rw [show ((filteredRows rows sd ed).length : ℤ) + -(k:ℤ) - 1 = 0 by omega]
          simp [Int.zero_fdiv]
        · exact le_of_lt (fdiv_neg_of_pos_of_neg _ _ (by omega) (by omega))
      · rw [show ((filteredRows rows sd ed).length : ℤ) + -(k:ℤ) - 1 = 0 by omega]
        simp [Int.zero_fdiv]
      · exact fdiv_neg_of_pos_of_neg _ _ (by omega) (by omega)
    refine ⟨?_, (htp _ rfl).1, (htp _ rfl).2.1, (htp _ rfl).2.2⟩
    unfold run_data load_metrics_optimized
    dsimp only
    rw [hmin, show ((max 1 (1:ℤ)) - 1) * (-(k : ℤ)) = 0 by norm_num,
      show (0:ℤ) + (-(k : ℤ)) = -(k : ℤ) by ring, pySlice_zero,
      show pyNormIdx (sort_data (filteredRows rows sd ed) sb dsc).length (-(k : ℤ))
          = (filteredRows rows sd ed).length - k by
        unfold pyNormIdx
        rw [sort_data_length]
        split <;> omega]
    unfold get_metrics_data
    dsimp only
    rw [if_neg (by
      have hlen : ((sort_data (filteredRows rows sd ed) sb dsc).take
          ((filteredRows rows sd ed).length - k)).length
          = (filteredRows rows sd ed).length - k := by
        rw [List.length_take, sort_data_length]; omega
      intro hemp
      rw [List.isEmpty_iff] at hemp
      rw [hemp] at hlen
      simp at hlen
      omega)]
    rw [show ((sort_data (filteredRows rows sd ed) sb dsc).take
        ((filteredRows rows sd ed).length - k)).length
        = (filteredRows rows sd ed).length - k by
      rw [List.length_take, sort_data_length]; omega, hmin]
    norm_num

/-- C10 witness for the amended theorem: three filtered rows and `k = 1`
(`page_size = -1`): the page keeps the first two rows and
`total_pages = (3 - 1 - 1) // (-1) = -1 < 0`. -/
theorem negative_page_size_behavior_witness :
    (run_data threeRaw none none "date" false 1 (-(1 : ℤ)) "viewer"
        = .ok ⟨((sort_data (filteredRows threeRaw none none) "date" false).take
                  ((filteredRows threeRaw none none).length - 1)).map (formatRow "viewer"),
               (filteredRows threeRaw none none).length, 1, -(1 : ℤ),
               total_pages_calc (filteredRows threeRaw none none).length (-(1 : ℤ)),
               none, some ((filteredRows threeRaw none none).length - 1)⟩)
      ∧ total_pages_calc (filteredRows threeRaw none none).length (-(1 : ℤ)) ≤ 0
      ∧ ((filteredRows threeRaw none none).length = 1 + 1 →
          total_pages_calc (filteredRows threeRaw none none).length (-(1 : ℤ)) = 0)
      ∧ (1 + 2 ≤ (filteredRows threeRaw none none).length →
          total_pages_calc (filteredRows threeRaw none none).length (-(1 : ℤ)) < 0) :=
  negative_page_size_behavior.2 threeRaw none none "date" false "viewer" 1
    (by decide) (by decide)

/-- Full characterization of when the loading loop keeps a row. -/
theorem processRow_eq_some_iff (sdt edt : Option Date) (row : RawRow) (m : MetricRow) :
    processRow sdt edt row = some m ↔
      ∃ d cm ck cv im ir,
        rowDate? row = some d
        ∧ (match sdt with | some s => decide (d < s) | none => false) = false
        ∧ (match edt with | some e => decide (e < d) | none => false) = false
        ∧ (fieldVal row.cost_micros).toOption = some cm
        ∧ (fieldVal row.clicks).toOption = some ck
        ∧ (fieldVal row.conversions).toOption = some cv
        ∧ (fieldVal row.impressions).toOption = some im
        ∧ (fieldVal row.interactions).toOption = some ir
        ∧ m = ⟨row.account_id, row.campaign_id, d, cm, ck, cv, im, ir⟩ := by
  unfold processRow
  cases hrd : rowDate? row with
  | none => simp
  | some d =>
    show (some d >>= fun d => _) = some m ↔ _
    rw [show ∀ (f : Date → Option MetricRow), (some d >>= f) = f d from fun _ => rfl]
    split_ifs with h1 h2
    · constructor
      · intro h; exact absurd h (by simp)
      · rintro ⟨d', _, _, _, _, _, hd, hc1, _⟩
        obtain rfl : d = d' := by injection hd
        rw [h1] at hc1
        exact absurd hc1 (by simp)
    · constructor
      · intro h; exact absurd h (by simp)
      · rintro ⟨d', _, _, _, _, _, hd, _, hc2, _⟩
        obtain rfl : d = d' := by injection hd
        rw [h2] at hc2
        exact absurd hc2 (by simp)
    · constructor
      · intro h
        obtain ⟨cm, hcm, h⟩ := Option.bind_eq_some.mp h
        obtain ⟨ck, hck, h⟩ := Option.bind_eq_some.mp h
        obtain ⟨cv, hcv, h⟩ := Option.bind_eq_some.mp h
        obtain ⟨im, him, h⟩ := Option.bind_eq_some.mp h
        obtain ⟨ir, hir, h⟩ := Option.bind_eq_some.mp h
        refine ⟨d, cm, ck, cv, im, ir, rfl, by simpa using h1, by simpa using h2,
          hcm, hck, hcv, him, hir, ?_⟩
        simpa using h.symm
      · rintro ⟨d', cm, ck, cv, im, ir, hd, _, _, hcm, hck, hcv, him, hir, rfl⟩
        obtain rfl : d = d' := by injection hd
        rw [hcm, hck, hcv, him, hir]
        rfl

/-- C4: kept rows lie inside the (inclusive) supplied bounds; a row dated
exactly on a bound is kept when its fields normalize; a row with an
unparsable or missing date is excluded regardless of bounds; and an
unparsable bound string is ignored (treated as absent) by the loader
rather than rejecting the request. -/
theorem date_filter_correct :
    (∀ (sdt edt : Option Date) (row : RawRow) (m : MetricRow),
        processRow sdt edt row = some m →
          (∀ s, sdt = some s → s ≤ m.date) ∧ (∀ e, edt = some e → m.date ≤ e))
    ∧ (∀ (sdt edt : Option Date) (row : RawRow),
        rowDate? row = none → processRow sdt edt row = none)
    ∧ (∀ (s e : Date) (row : RawRow) (d : Date),
        rowDate? row = some d → (d = s ∨ d = e) → s ≤ e →
        (fieldVal row.cost_micros).toOption.isSome →
        (fieldVal row.clicks).toOption.isSome →
        (fieldVal row.conversions).toOption.isSome →
        (fieldVal row.impressions).toOption.isSome →
        (fieldVal row.interactions).toOption.isSome →
        ∃ m, processRow (some s) (some e) row = some m ∧ m.date = d)
    ∧ (∀ bound : String, parseDate? bound = none →
        ∀ (rows : List RawRow) (x : Option String) (sb : String) (dsc : Bool) (pg ps : ℤ),
          load_metrics_optimized rows (some bound) x sb dsc pg ps
              = load_metrics_optimized rows none x sb dsc pg ps
            ∧ load_metrics_optimized rows x (some bound) sb dsc pg ps
              = load_metrics_optimized rows x none sb dsc pg ps) := by
  refine ⟨?_, ?_, ?_, ?_⟩
  · intro sdt edt row m h
    obtain ⟨d, cm, ck, cv, im, ir, hd, hc1, hc2, -, -, -, -, -, rfl⟩ :=
      (processRow_eq_some_iff sdt edt row m).mp h
    constructor
    · rintro s rfl
      simp only [decide_eq_false_iff_not, not_lt] at hc1
      exact hc1
    · rintro e rfl
      simp only [decide_eq_false_iff_not, not_lt] at hc2
      exact hc2
  · intro sdt edt row h
    unfold processRow
    rw [h]
    rfl
  · intro s e row d hd hde hse hcm hck hcv him hir
    obtain ⟨cm, hcm'⟩ := Option.isSome_iff_exists.mp hcm
    obtain ⟨ck, hck'⟩ := Option.isSome_iff_exists.mp hck
    obtain ⟨cv, hcv'⟩ := Option.isSome_iff_exists.mp hcv
    obtain ⟨im, him'⟩ := Option.isSome_iff_exists.mp him
    obtain ⟨ir, hir'⟩ := Option.isSome_iff_exists.mp hir
    have hs : ¬ d < s := by
      rcases hde with rfl | rfl
      · exact lt_irrefl d
      · exact not_lt.mpr hse
    have he : ¬ e < d := by
      rcases hde with rfl | rfl
      · exact not_lt.mpr hse
      · exact lt_irrefl d
    refine ⟨⟨row.account_id, row.campaign_id, d, cm, ck, cv, im, ir⟩, ?_, rfl⟩
    exact (processRow_eq_some_iff _ _ row _).mpr
      ⟨d, cm, ck, cv, im, ir, hd, by simpa using hs, by simpa using he,
        hcm', hck', hcv', him', hir', rfl⟩
  · intro bound h rows x sb dsc pg ps
    have hb : parseBound (some bound) = parseBound none := by
      show (if bound = "" then none else parseDate? bound) = none
      split <;> simp [h]
    unfold load_metrics_optimized filteredRows
    rw [hb]
    exact ⟨rfl, rfl⟩

/-- A raw row dated `2024-01-01` with well-formed numeric fields. -/
def demoRow : RawRow :=
  ⟨some "a1", some "c1", some "2024-01-01", some "10", some "1", some "2", some "3", some "4"⟩

/-- C4 witness: `demoRow` dated exactly on the start bound of
`[2024-01-01, 2024-01-31]` is kept. -/
theorem date_filter_correct_witness :
    ∃ m, processRow (some ⟨2024,1,1⟩) (some ⟨2024,1,31⟩) demoRow = some m
      ∧ m.date = ⟨2024,1,1⟩ :=
  date_filter_correct.2.2.1 ⟨2024,1,1⟩ ⟨2024,1,31⟩ demoRow ⟨2024,1,1⟩
    (by decide) (Or.inl rfl) (by decide) (by decide) (by decide) (by decide)
    (by decide) (by decide)

/-- A raw row with a valid date but a non-numeric `clicks` field. -/
def badNumRow : RawRow :=
  ⟨some "a3", some "c3", some "2024-01-03", some "10", some "abc", some "1", some "2", some "3"⟩

/-- C2 counterexample: `badNumRow` has a parseable date and a malformed
(non-empty, non-numeric) `clicks` field, yet the loader drops the row
(`float('abc')` raises and the `except` clause skips the row) instead of
keeping it with `clicks = 0`. -/
theorem malformed_numeric_drops_row_counterexample :
    rowDate? badNumRow = some ⟨2024, 1, 3⟩
      ∧ processRow none none badNumRow = none := by
  exact ⟨by decide, by decide⟩

/-- C2 (amended): a row whose date parses and is in range is kept whenever
all five numeric fields normalize, with each value as normalized; a
*missing* numeric field is treated as `"0"` and coerces to `0` (and an
empty string coerces to `0`); but a field whose normalization raises
(e.g. a non-empty non-numeric string) causes the whole row to be dropped,
not coerced. -/
theorem numeric_field_handling :
    (∀ (sdt edt : Option Date) (row : RawRow) (d : Date),
        rowDate? row = some d →
        (match sdt with | some s => decide (d < s) | none => false) = false →
        (match edt with | some e => decide (e < d) | none => false) = false →
        ∀ cm ck cv im ir : ℚ,
        (fieldVal row.cost_micros).toOption = some cm →
        (fieldVal row.clicks).toOption = some ck →
        (fieldVal row.conversions).toOption = some cv →
        (fieldVal row.impressions).toOption = some im →
        (fieldVal row.interactions).toOption = some ir →
        processRow sdt edt row = some ⟨row.account_id, row.campaign_id, d, cm, ck, cv, im, ir⟩)
    ∧ (fieldVal none = .ok 0 ∧ normalize_num (some "") = .ok 0)
    ∧ (∀ (sdt edt : Option Date) (row : RawRow),
        ((fieldVal row.cost_micros).toOption = none
          ∨ (fieldVal row.clicks).toOption = none
          ∨ (fieldVal row.conversions).toOption = none
          ∨ (fieldVal row.impressions).toOption = none
          ∨ (fieldVal row.interactions).toOption = none) →
        processRow sdt edt row = none) := by
  refine ⟨?_, ⟨?_, rfl⟩, ?_⟩
  · intro sdt edt row d hd hc1 hc2 cm ck cv im ir hcm hck hcv him hir
    exact (processRow_eq_some_iff sdt edt row _).mpr
      ⟨d, cm, ck, cv, im, ir, hd, hc1, hc2, hcm, hck, hcv, him, hir, rfl⟩
  · show normalize_num (some "0") = .ok 0
    simp +decide +arith [normalize_num, pyFloat, pyFloatUnsigned, parseMantissa,
      splitOnChar, trimChars, digitsVal, allDigits, lowerE, commaToDot, lastIdx,
      lastIdxFrom, Except.map]
  · intro sdt edt row h
    unfold processRow
    cases hrd : rowDate? row with
    | none => rfl
    | some d =>
      show (some d >>= fun d => _) = none
      rw [show ∀ (f : Date → Option MetricRow), (some d >>= f) = f d from fun _ => rfl]
      split_ifs with h1 h2
      · rfl
      · rfl
      · cases hcm : (fieldVal row.cost_micros).toOption <;>
          cases hck : (fieldVal row.clicks).toOption <;>
          cases hcv : (fieldVal row.conversions).toOption <;>
          cases him : (fieldVal row.impressions).toOption <;>
          cases hir : (fieldVal row.interactions).toOption <;>
          simp_all

/-- A raw row with a valid date and a missing `clicks` field. -/
def missingClicksRow : RawRow :=
  ⟨some "a5", some "c5", some "2024-01-05", some "10", none, some "1", some "2", some "3"⟩

/-- C2 witness for the amended theorem: the row with a missing `clicks`
field is kept, with `clicks` coerced to `0`. -/
theorem numeric_field_handling_witness :
    processRow none none missingClicksRow
      = some ⟨missingClicksRow.account_id, missingClicksRow.campaign_id, ⟨2024, 1, 5⟩,
          10, 0, 1, 2, 3⟩ :=
  numeric_field_handling.1 none none missingClicksRow ⟨2024, 1, 5⟩
    (by decide) rfl rfl 10 0 1 2 3
    (by norm_num +decide [fieldVal, normalize_num, pyFloat, pyFloatUnsigned, parseMantissa,
      splitOnChar, trimChars, digitsVal, allDigits, lowerE, commaToDot, lastIdx, lastIdxFrom,
      Except.map, Except.toOption])
    (by norm_num +decide [fieldVal, normalize_num, pyFloat, pyFloatUnsigned, parseMantissa,
      splitOnChar, trimChars, digitsVal, allDigits, lowerE, commaToDot, lastIdx, lastIdxFrom,
      Except.map, Except.toOption])
    (by norm_num +decide [fieldVal, normalize_num, pyFloat, pyFloatUnsigned, parseMantissa,
      splitOnChar, trimChars, digitsVal, allDigits, lowerE, commaToDot, lastIdx, lastIdxFrom,
      Except.map, Except.toOption])
    (by norm_num +decide [fieldVal, normalize_num, pyFloat, pyFloatUnsigned, parseMantissa,
      splitOnChar, trimChars, digitsVal, allDigits, lowerE, commaToDot, lastIdx, lastIdxFrom,
      Except.map, Except.toOption])
    (by norm_num +decide [fieldVal, normalize_num, pyFloat, pyFloatUnsigned, parseMantissa,
      splitOnChar, trimChars, digitsVal, allDigits, lowerE, commaToDot, lastIdx, lastIdxFrom,
      Except.map, Except.toOption])

/-! ## Sorting lemmas: order and stability of the insertion-sort model -/

theorem keyRel_total {α β : Type} [LinearOrder β] (key : α → β) :
    IsTotal α (fun a b => key a ≤ key b) := ⟨fun a b => le_total (key a) (key b)⟩

theorem keyRel_trans {α β : Type} [LinearOrder β] (key : α → β) :
    IsTrans α (fun a b => key a ≤ key b) := ⟨fun _ _ _ => le_trans⟩

theorem sortKeyed_sorted {α β : Type} [LinearOrder β] (key : α → β) (l : List α) :
    (sortKeyed key false l).Sorted (fun a b => key a ≤ key b) := by
  unfold sortKeyed
  rw [if_neg (by simp)]
  haveI := keyRel_total key
  haveI := keyRel_trans key
  exact List.sorted_insertionSort _ l

theorem filter_orderedInsert {α β : Type} [LinearOrder β] (key : α → β) (q : β) (x : α)
    (l : List α) :
    (l.orderedInsert (fun a b => key a ≤ key b) x).filter (fun a => decide (key a = q))
      = if key x = q then x :: l.filter (fun a => decide (key a = q))
        else l.filter (fun a => decide (key a = q)) := by
  induction l with
  | nil =>
    by_cases hx : key x = q <;> simp [List.orderedInsert, List.filter, hx]
  | cons y ys ih =>
    by_cases hxy : key x ≤ key y
    · rw [List.orderedInsert, if_pos hxy]
      by_cases hx : key x = q <;> simp [List.filter_cons, hx]
    · rw [List.orderedInsert, if_neg hxy]
      have hyx : key y < key x := lt_of_not_le hxy
      by_cases hx : key x = q
      · have hy : ¬ key y = q := by rw [← hx]; exact ne_of_lt hyx
        simp [List.filter_cons, hx, hy, ih]
      · by_cases hy : key y = q <;> simp [List.filter_cons, hx, hy, ih]

theorem filter_insertionSort {α β : Type} [LinearOrder β] (key : α → β) (q : β)
    (l : List α) :
    (l.insertionSort (fun a b => key a ≤ key b)).filter (fun a => decide (key a = q))
      = l.filter (fun a => decide (key a = q)) := by
  induction l with
  | nil => rfl
  | cons x xs ih =>
    rw [List.insertionSort, filter_orderedInsert]
    by_cases hx : key x = q <;> simp [List.filter_cons, hx, ih]

/-- C5: sorting by any of the five numeric fields ascending yields a
non-decreasing sequence of that field's value; the sort is stable (the
subsequence of rows carrying any fixed key value is preserved); and an
unsupported field name leaves the list in its original order rather than
being rejected. -/
theorem sort_numeric_correct :
    (∀ f, f ∈ numericFields → ∀ data : List MetricRow,
        ((sort_data data f false).Sorted (fun a b => numField f a ≤ numField f b))
        ∧ ∀ q : ℚ,
            (sort_data data f false).filter (fun r => decide (numField f r = q))
              = data.filter (fun r => decide (numField f r = q)))
    ∧ ∀ (sb : String) (dsc : Bool) (data : List MetricRow),
        sb ∉ ["date", "cost_micros", "clicks", "conversions", "impressions",
          "interactions", "account_id", "campaign_id"] →
        sort_data data sb dsc = data := by
  constructor
  · intro f hf data
    have heq : sort_data data f false
        = data.insertionSort (fun a b => numField f a ≤ numField f b) := by
      fin_cases hf <;> rfl
    rw [heq]
    constructor
    · haveI := keyRel_total (numField f)
      haveI := keyRel_trans (numField f)
      exact List.sorted_insertionSort _ data
    · intro q
      exact filter_insertionSort (numField f) q data
  · intro sb dsc data h
    have h1 : ¬ sb = "date" := fun hh => h (by rw [hh]; decide)
    have h3 : ¬ sb = "account_id" := fun hh => h (by rw [hh]; decide)
    have h4 : ¬ sb = "campaign_id" := fun hh => h (by rw [hh]; decide)
    have h2 : sb ∉ numericFields := by
      intro hh
      simp only [numericFields, List.mem_cons, List.not_mem_nil, or_false] at hh
      rcases hh with rfl | rfl | rfl | rfl | rfl <;> exact h (by decide)
    unfold sort_data
    rw [if_neg h1, if_neg h2, if_neg h3, if_neg h4]

/-- Three concrete metric rows with a duplicate `clicks` key. -/
def demoMetricRows : List MetricRow :=
  [⟨some "x", none, ⟨2024,1,1⟩, 0, 5, 0, 0, 0⟩,
   ⟨some "y", none, ⟨2024,1,2⟩, 0, 3, 0, 0, 0⟩,
   ⟨some "z", none, ⟨2024,1,3⟩, 0, 5, 0, 0, 0⟩]

/-- C5 witness: sorting `demoMetricRows` by `clicks` ascending is sorted,
keeps the two `clicks = 5` rows in their original relative order, and an
unknown field name is a no-op. -/
theorem sort_numeric_correct_witness :
    ((sort_data demoMetricRows "clicks" false).Sorted
        (fun a b => numField "clicks" a ≤ numField "clicks" b))
      ∧ (sort_data demoMetricRows "clicks" false).filter
            (fun r => decide (numField "clicks" r = 5))
          = demoMetricRows.filter (fun r => decide (numField "clicks" r = 5))
      ∧ sort_data demoMetricRows "nonsense" true = demoMetricRows :=
  ⟨(sort_numeric_correct.1 "clicks" (by decide) demoMetricRows).1,
   (sort_numeric_correct.1 "clicks" (by decide) demoMetricRows).2 5,
   sort_numeric_correct.2 "nonsense" true demoMetricRows (by decide)⟩

theorem take_min_length {α : Type} (l : List α) (a : ℕ) :
    l.take (min a l.length) = l.take a := by
  rcases le_total a l.length with h | h
  · rw [min_eq_left h]
  · rw [min_eq_right h, List.take_length, List.take_of_length_le h]

theorem sort_data_nil (sb : String) (dsc : Bool) : sort_data [] sb dsc = [] := by
  unfold sort_data sortKeyed
  split_ifs <;> rfl

theorem fmt0_zero : fmt0 0 = "0" := by
  unfold fmt0
  rw [if_neg (by norm_num), abs_zero, round_zero]
  rfl

/-- C7: `/stats` sums exactly the first `min 5000 total` filtered rows in
date-ascending order; `total_records` is the true filtered total even when
the sums are sample-based; and the `note` names the sample size exactly
when the true total exceeds it. -/
theorem stats_sample_correct (rows : List RawRow) (sd ed : Option String) :
    (run_stats rows sd ed).total_records = (filteredRows rows sd ed).length
    ∧ (run_stats rows sd ed).total_clicks
        = fmt0 ((((sort_data (filteredRows rows sd ed) "date" false).take 5000).map
            (fun r => r.clicks)).sum)
    ∧ (run_stats rows sd ed).total_conversions
        = fmt0 ((((sort_data (filteredRows rows sd ed) "date" false).take 5000).map
            (fun r => r.conversions)).sum)
    ∧ (run_stats rows sd ed).total_impressions
        = fmt0 ((((sort_data (filteredRows rows sd ed) "date" false).take 5000).map
            (fun r => r.impressions)).sum)
    ∧ ((sort_data (filteredRows rows sd ed) "date" false).take 5000).length
        = min 5000 (filteredRows rows sd ed).length
    ∧ (run_stats rows sd ed).note
        = (if ((sort_data (filteredRows rows sd ed) "date" false).take 5000).length
              < (filteredRows rows sd ed).length then
            some ("Calculado com amostra de "
              ++ toString ((sort_data (filteredRows rows sd ed) "date" false).take 5000).length
              ++ " registros")
          else none) := by
  have hslice : pySlice (sort_data (filteredRows rows sd ed) "date" false)
      ((1 - 1) * 5000) ((1 - 1) * 5000 + 5000)
      = (sort_data (filteredRows rows sd ed) "date" false).take 5000 := by
    rw [show ((1:ℤ) - 1) * 5000 = 0 by ring, show ((0:ℤ) + 5000) = 5000 by ring, pySlice_zero,
      show pyNormIdx (sort_data (filteredRows rows sd ed) "date" false).length 5000
          = min 5000 (sort_data (filteredRows rows sd ed) "date" false).length by
        unfold pyNormIdx; split <;> omega,
      take_min_length]
  unfold run_stats load_metrics_optimized
  dsimp only
  rw [hslice]
  unfold get_basic_stats
  dsimp only
  by_cases hemp : ((sort_data (filteredRows rows sd ed) "date" false).take 5000).isEmpty
  · rw [List.isEmpty_iff] at hemp
    have hfl : filteredRows rows sd ed = [] := by
      rcases List.take_eq_nil_iff.mp hemp with h5 | hnil
      · omega
      · have hlen := sort_data_length (filteredRows rows sd ed) "date" false
        rw [hnil] at hlen
        exact List.length_eq_zero.mp hlen.symm
    rw [hfl, sort_data_nil]
    exact ⟨rfl, fmt0_zero.symm, fmt0_zero.symm, fmt0_zero.symm, rfl, rfl⟩
  · rw [if_neg hemp]
    refine ⟨rfl, rfl, rfl, rfl, ?_, rfl⟩
    rw [List.length_take, sort_data_length]

/-! ## Separator counting: why a rightmost-dot comma string cannot parse -/

theorem count_dot_map_commaToDot (v : List Char) :
    ((v.map commaToDot).count '.') = v.count '.' + v.count ',' := by
  induction v with
  | nil => rfl
  | cons c cs ih =>
    by_cases h1 : c = ','
    · subst h1
      simp +decide [commaToDot, List.count_cons, ih]
      omega
    · by_cases h2 : c = '.' <;>
        simp +decide [commaToDot, List.count_cons, h1, h2, ih] <;> omega

theorem count_dot_map_lowerE (l : List Char) :
    ((l.map lowerE).count '.') = l.count '.' := by
  induction l with
  | nil => rfl
  | cons c cs ih =>
    by_cases h : c = 'E'
    · subst h
      simp +decide [lowerE, List.count_cons, ih]
    · by_cases h2 : c = '.' <;> simp +decide [lowerE, List.count_cons, h, h2, ih]

theorem count_dot_dropWhile (l : List Char) :
    ((l.dropWhile Char.isWhitespace).count '.') = l.count '.' := by
  induction l with
  | nil => rfl
  | cons c cs ih =>
    by_cases h : Char.isWhitespace c
    · rw [List.dropWhile_cons_of_pos h, ih]
      have hc : ¬ c = '.' := by
        intro hh
        rw [hh] at h
        exact absurd h (by decide)
      simp [List.count_cons, hc]
    · rw [List.dropWhile_cons_of_neg h]

theorem count_dot_trimChars (l : List Char) :
    (trimChars l).count '.' = l.count '.' := by
  unfold trimChars
  rw [List.count_reverse, count_dot_dropWhile, List.count_reverse, count_dot_dropWhile]

theorem splitOnChar_ne_nil (c : Char) (l : List Char) : splitOnChar c l ≠ [] := by
  induction l with
  | nil => simp [splitOnChar]
  | cons x xs ih =>
    unfold splitOnChar
    split
    · simp
    · cases h : splitOnChar c xs with
      | nil => exact absurd h ih
      | cons y ys => simp

theorem length_splitOnChar (c : Char) (l : List Char) :
    (splitOnChar c l).length = l.count c + 1 := by
  induction l with
  | nil => rfl
  | cons x xs ih =>
    unfold splitOnChar
    by_cases h : x = c
    · rw [if_pos h]
      simp [List.count_cons, h, ih]
    · rw [if_neg h]
      cases hs : splitOnChar c xs with
      | nil => exact absurd hs (splitOnChar_ne_nil c xs)
      | cons y ys =>
        rw [hs] at ih
        simp only [List.length_cons] at ih ⊢
        simp [List.count_cons, h, ih]

theorem sum_counts_splitOnChar (c d : Char) (hcd : d ≠ c) (l : List Char) :
    ((splitOnChar c l).map (fun p => p.count d)).sum = l.count d := by
  induction l with
  | nil => rfl
  | cons x xs ih =>
    unfold splitOnChar
    by_cases h : x = c
    · rw [if_pos h]
      subst h
      have hxd : ¬ x = d := fun hh => hcd (hh ▸ rfl)
      simp only [List.map_cons, List.sum_cons, List.count_nil, ih, List.count_cons]
      simp [show ¬ (x == d) = true by simpa using hxd]
    · rw [if_neg h]
      cases hs : splitOnChar c xs with
      | nil => exact absurd hs (splitOnChar_ne_nil c xs)
      | cons y ys =>
        rw [hs] at ih
        simp only [List.map_cons, List.sum_cons] at ih ⊢
        by_cases hxd : x = d <;> simp [List.count_cons, hxd] <;> omega

theorem parseMantissa_error_of_two_dots (m : List Char) (h : 2 ≤ m.count '.') :
    parseMantissa m = .error () := by
  have hlen := length_splitOnChar '.' m
  unfold parseMantissa
  cases hs : splitOnChar '.' m with
  | nil => exact absurd hs (splitOnChar_ne_nil _ _)
  | cons a rest =>
    cases rest with
    | nil =>
      rw [hs] at hlen
      simp at hlen
      omega
    | cons b rest2 =>
      cases rest2 with
      | nil =>
        rw [hs] at hlen
        simp at hlen
        omega
      | cons c3 rest3 => rfl

theorem allDigits_eq_false_of_dot (r : List Char) (h : '.' ∈ r) : allDigits r = false := by
  rw [Bool.eq_false_iff]
  intro hall
  unfold allDigits at hall
  rw [List.all_eq_true] at hall
  have := hall '.' h
  exact absurd this (by decide)

theorem parseExp_error_of_dot (x : List Char) (h : '.' ∈ x) : parseExp x = .error () := by
  have hdig : ∀ (r : List Char) (sgn : ℤ), '.' ∈ r → parseExpDigits r sgn = .error () := by
    intro r sgn hr
    unfold parseExpDigits
    rw [allDigits_eq_false_of_dot r hr]
    simp
  cases x with
  | nil => simp at h
  | cons c r =>
    unfold parseExp
    dsimp only
    split_ifs with h1 h2
    · exact hdig r 1 (by
        rcases List.mem_cons.mp h with hh | hh
        · rw [h1] at hh; exact absurd hh (by decide)
        · exact hh)
    · exact hdig r (-1) (by
        rcases List.mem_cons.mp h with hh | hh
        · rw [h2] at hh; exact absurd hh (by decide)
        · exact hh)
    · exact hdig (c :: r) 1 h

theorem pyFloatUnsigned_error_of_two_dots (l : List Char) (sgn : ℚ)
    (h : 2 ≤ l.count '.') : pyFloatUnsigned l sgn = .error () := by
  have hm : 2 ≤ (l.map lowerE).count '.' := by rw [count_dot_map_lowerE]; exact h
  have hsum := sum_counts_splitOnChar 'e' '.' (by decide) (l.map lowerE)
  unfold pyFloatUnsigned
  cases hs : splitOnChar 'e' (l.map lowerE) with
  | nil => exact absurd hs (splitOnChar_ne_nil _ _)
  | cons m rest =>
    cases rest with
    | nil =>
      rw [hs] at hsum
      simp only [List.map_cons, List.map_nil, List.sum_cons, List.sum_nil, add_zero] at hsum
      dsimp only
      rw [parseMantissa_error_of_two_dots m (by omega)]
      rfl
    | cons x rest2 =>
      cases rest2 with
      | nil =>
        rw [hs] at hsum
        simp only [List.map_cons, List.map_nil, List.sum_cons, List.sum_nil, add_zero] at hsum
        dsimp only
        by_cases hx : 1 ≤ x.count '.'
        · have hmem : '.' ∈ x := List.count_pos_iff.mp (by omega)
          cases hpm : parseMantissa m with
          | error u => rfl
          | ok q =>
            rw [parseExp_error_of_dot x hmem]
            rfl
        · have h2m : 2 ≤ m.count '.' := by omega
          rw [parseMantissa_error_of_two_dots m h2m]
          rfl
      | cons y rest3 => rfl

theorem pyFloat_error_of_two_dots (w : List Char) (h : 2 ≤ w.count '.') :
    pyFloat w = .error () := by
  have ht : 2 ≤ (trimChars w).count '.' := by rw [count_dot_trimChars]; exact h
  unfold pyFloat
  cases hs : trimChars w with
  | nil => rfl
  | cons c r =>
    rw [hs] at ht
    dsimp only
    split_ifs with h1 h2
    · apply pyFloatUnsigned_error_of_two_dots
      rw [h1] at ht
      simpa +decide [List.count_cons] using ht
    · apply pyFloatUnsigned_error_of_two_dots
      rw [h2] at ht
      simpa +decide [List.count_cons] using ht
    · exact pyFloatUnsigned_error_of_two_dots _ _ ht

/-- C1 counterexample: the spec requires `"1,234.56" → 1234.56` and
`"abc" → 0`, but on both inputs the normalizer raises (for `"1,234.56"`
the `else` branch turns the string into `"1.234.56"`, which `float`
rejects; a non-empty non-numeric string reaches `float` unchanged and
raises). -/
theorem normalize_num_counterexample :
    normalize_num (some "1,234.56") = .error ()
      ∧ ¬ normalize_num (some "1,234.56") = .ok (1234.56 : ℚ)
      ∧ normalize_num (some "abc") = .error ()
      ∧ ¬ normalize_num (some "abc") = .ok 0 := by
  refine ⟨rfl, ?_, rfl, ?_⟩
  · intro h
    rw [show normalize_num (some "1,234.56") = .error () from rfl] at h
    exact Except.noConfusion h
  · intro h
    rw [show normalize_num (some "abc") = .error () from rfl] at h
    exact Except.noConfusion h

/-- C1 (amended): `None` and the empty string normalize to `0`; a string
without a comma parses as a plain real (`"50" → 50`); when a comma is
present and the rightmost separator is the comma, the dots are stripped
and the comma becomes the decimal point (`"1.234,56" → 1234.56`); but when
the rightmost separator is the dot, every comma is replaced by a dot and
the multi-dot result always fails to parse, so the value raises instead of
normalizing (`"1,234.56"` raises); a non-empty non-numeric value likewise
raises rather than normalizing to `0` (`"abc"` raises). -/
theorem normalize_num_behavior :
    normalize_num none = .ok 0
      ∧ normalize_num (some "") = .ok 0
      ∧ normalize_num (some "1.234,56") = .ok (1234.56 : ℚ)
      ∧ normalize_num (some "50") = .ok (50 : ℚ)
      ∧ normalize_num (some "1,234.56") = .error ()
      ∧ normalize_num (some "abc") = .error ()
      ∧ ∀ s : String,
          ',' ∈ trimChars s.toList →
          '.' ∈ trimChars s.toList →
          lastIdx (trimChars s.toList) ',' < lastIdx (trimChars s.toList) '.' →
          normalize_num (some s) = .error () := by
  refine ⟨rfl, rfl, ?_, ?_, rfl, rfl, ?_⟩
  · simp +decide +arith [normalize_num, pyFloat, pyFloatUnsigned, parseMantissa, splitOnChar,
      trimChars, digitsVal, allDigits, lowerE, commaToDot, lastIdx, lastIdxFrom, Except.map]
    norm_num
  · simp +decide +arith [normalize_num, pyFloat, pyFloatUnsigned, parseMantissa, splitOnChar,
      trimChars, digitsVal, allDigits, lowerE, commaToDot, lastIdx, lastIdxFrom, Except.map]
  · intro s hc hd hlt
    have hne : ¬ s = "" := by
      intro hh
      rw [hh] at hc
      exact absurd hc (by decide)
    unfold normalize_num
    dsimp only
    rw [if_neg hne, if_pos hc, if_neg (fun hcontra => absurd hcontra.2 (by omega))]
    apply pyFloat_error_of_two_dots
    rw [count_dot_map_commaToDot]
    have h1 : 0 < (trimChars s.toList).count '.' := List.count_pos_iff.mpr hd
    have h2 : 0 < (trimChars s.toList).count ',' := List.count_pos_iff.mpr hc
    omega

/-- C1 witness for the amended theorem: `"12,34.5"` has a comma and a
rightmost dot, and raises. -/
theorem normalize_num_behavior_witness :
    normalize_num (some "12,34.5") = .error () :=
  normalize_num_behavior.2.2.2.2.2.2 "12,34.5" (by decide) (by decide) (by decide)

end Monks
